import Mathlib

/-!
Verification of the M/M/c queueing analysis and cost-optimization program
(`src/queue_models.py`, `src/optimizer.py`, `src/distribution_fitter.py`).

The Python code works in float64; the embedding uses exact rational
arithmetic (ℚ), which matches the real-arithmetic reading of the spec.
Python raising `ZeroDivisionError` is modelled with `Option` where a claim
depends on it (`MMcQueue.init`); inside `calculate_metrics` the ℚ-division
total convention (x / 0 = 0) is only ever exercised at λ = 0, a point no
theorem below touches.  Float64 overflow is modelled by comparing exact
intermediate magnitudes against 2^1024, the smallest magnitude that rounds
to infinity in IEEE-754 double precision.
-/

/-- Python `range(a, b)` over integers: the list `[a, a+1, …, b-1]`. -/
def pyRange (a b : ℤ) : List ℤ :=
  (List.range (b - a).toNat).map (fun (i : ℕ) => a + (i : ℤ))

/-- `scipy.special.factorial` on an integer argument: `n!` for `n ≥ 0`,
and `0` for negative `n`, returned as a float (here: ℚ). -/
def scipyFactorial (n : ℤ) : ℚ :=
  if n < 0 then 0 else (n.toNat.factorial : ℚ)

/-- The state of `MMcQueue.__init__`: the three parameters plus the
utilization `rho = λ / (c·μ)` computed at construction. -/
structure MMcQueue where
  lambda_rate : ℚ
  mu_rate : ℚ
  c : ℤ
  rho : ℚ
deriving Repr, DecidableEq

/-- `MMcQueue(lambda_rate, mu_rate, c_servers)`.  The constructor performs no
validation; the only way it fails is the `ZeroDivisionError` Python raises
while computing `rho = lambda_rate / (c_servers * mu_rate)` when the divisor
is zero (modelled as `none`). -/
def MMcQueue.init (lambda_rate mu_rate : ℚ) (c_servers : ℤ) : Option MMcQueue :=
  if (c_servers : ℚ) * mu_rate = 0 then none
  else some ⟨lambda_rate, mu_rate, c_servers, lambda_rate / ((c_servers : ℚ) * mu_rate)⟩

/-- Direct (total) construction, used where the divisor is provably nonzero:
agrees with `MMcQueue.init` there (`MMcQueue.init_eq_mk`). -/
def MMcQueue.mk' (lambda_rate mu_rate : ℚ) (c_servers : ℤ) : MMcQueue :=
  ⟨lambda_rate, mu_rate, c_servers, lambda_rate / ((c_servers : ℚ) * mu_rate)⟩

theorem MMcQueue.init_eq_mk (lam mu : ℚ) (c : ℤ) (h : (c : ℚ) * mu ≠ 0) :
    MMcQueue.init lam mu c = some (MMcQueue.mk' lam mu c) := by
  simp [MMcQueue.init, MMcQueue.mk', h]

/-- `MMcQueue.is_stable`: `rho < 1`. -/
def MMcQueue.is_stable (q : MMcQueue) : Bool :=
  decide (q.rho < 1)

/-- `MMcQueue._calculate_p0`:
`sum_term = Σ_{n=0}^{c-1} (λ/μ)^n / n!` (a Python list comprehension over
`range(c)`, so each term is computed from the naive power `(λ/μ)^n` and
`factorial(n)`), `last_term = (λ/μ)^c / c! · 1/(1-ρ)`,
`p0 = 1 / (sum_term + last_term)`. -/
def MMcQueue.calculate_p0 (q : MMcQueue) : ℚ :=
  let r := q.lambda_rate / q.mu_rate
  let sum_term := ((List.range q.c.toNat).map
    (fun n => r ^ n / (n.factorial : ℚ))).sum
  let last_term := r ^ q.c / scipyFactorial q.c * (1 / (1 - q.rho))
  1 / (sum_term + last_term)

/-- The populated metrics record returned by `calculate_metrics` in the
stable case (dict keys become fields; `lambda` is rendered `lam`). -/
structure Metrics where
  rho : ℚ
  utilization_percent : ℚ
  P0 : ℚ
  Pw_erlang_c : ℚ
  Lq : ℚ
  L : ℚ
  Wq : ℚ
  W : ℚ
  lam : ℚ
  mu : ℚ
  c : ℤ
deriving Repr, DecidableEq

/-- The two shapes `calculate_metrics` can return: the degraded record
`{stable: False, rho, message}` or the full stable record. -/
inductive MetricsResult where
  | unstable (rho : ℚ) (message : String)
  | stable (m : Metrics)
deriving Repr, DecidableEq

/-- The record built in the stable branch of `calculate_metrics`, line by
line from the source. -/
def MMcQueue.stableMetrics (q : MMcQueue) : Metrics :=
  let lam := q.lambda_rate
  let mu := q.mu_rate
  let rho := q.rho
  let p0 := q.calculate_p0
  let pw := ((lam / mu) ^ q.c / scipyFactorial q.c) * (1 / (1 - rho)) * p0
  let lq := pw * rho / (1 - rho)
  let wq := lq / lam
  let l := lq + lam / mu
  let w := wq + 1 / mu
  ⟨rho, rho * 100, p0, pw, lq, l, wq, w, lam, mu, q.c⟩

/-- `MMcQueue.calculate_metrics`: the degraded record when unstable, the
full record otherwise. -/
def MMcQueue.calculate_metrics (q : MMcQueue) : MetricsResult :=
  if ¬ q.is_stable then
    .unstable q.rho ("Sistema inestable: rho >= 1")
  else
    .stable q.stableMetrics

theorem MMcQueue.calculate_metrics_of_stable (q : MMcQueue)
    (h : q.is_stable = true) : q.calculate_metrics = .stable q.stableMetrics := by
  simp [MMcQueue.calculate_metrics, h]

/-! ## Cost optimizer (`src/optimizer.py`) -/

/-- The parameters held by `CostOptimizer.__init__`. -/
structure CostOptimizer where
  lambda_rate : ℚ
  mu_rate : ℚ
  cost_server : ℚ
  cost_waiting : ℚ
deriving Repr, DecidableEq

/-- `CostOptimizer.objective_function(c)` for an integer argument
(`int(np.ceil(c)) = c` there): `1e10` when `c ≤ 0` or the queue is
unstable, otherwise `c·cost_server + Lq·cost_waiting`. -/
def CostOptimizer.objective_function (o : CostOptimizer) (c : ℤ) : ℚ :=
  if c ≤ 0 then 10 ^ 10
  else
    let queue := MMcQueue.mk' o.lambda_rate o.mu_rate c
    if ¬ queue.is_stable then 10 ^ 10
    else
      match queue.calculate_metrics with
      | .unstable _ _ => 10 ^ 10
      | .stable m => (c : ℚ) * o.cost_server + m.Lq * o.cost_waiting

/-- One entry of the `results` table built inside `optimize`. -/
structure EvalRow where
  c : ℤ
  cost : ℚ
  Lq : ℚ
  Wq : ℚ
  rho : ℚ
  meets_sla : Bool
deriving Repr, DecidableEq

/-- `metrics['Wq'] <= sla_wq if sla_wq else True`: Python truthiness makes
both `None` and `0` fall to the `else` branch. -/
def rowMeetsSla (sla_wq : Option ℚ) (wq : ℚ) : Bool :=
  match sla_wq with
  | none => true
  | some s => if s = 0 then true else decide (wq ≤ s)

/-- The metrics `optimize` reads for a candidate `c` (only consulted for
stable `c`, where `calculate_metrics` returns `.stable` of this). -/
def CostOptimizer.metricsAt (o : CostOptimizer) (c : ℤ) : Metrics :=
  (MMcQueue.mk' o.lambda_rate o.mu_rate c).stableMetrics

/-- Whether the `for c in range(...)` body of `optimize` reaches the point
where it appends a row: the queue is stable and, when an SLA is supplied,
`Wq` does not exceed it (both `continue`s negated). -/
def CostOptimizer.passesFilters (o : CostOptimizer) (sla_wq : Option ℚ) (c : ℤ) : Bool :=
  (MMcQueue.mk' o.lambda_rate o.mu_rate c).is_stable &&
    match sla_wq with
    | none => true
    | some s => decide (¬ (o.metricsAt c).Wq > s)

/-- The row appended for a `c` that passes both filters (fields read off
`metrics` and `objective_function`). -/
def CostOptimizer.mkRow (o : CostOptimizer) (sla_wq : Option ℚ) (c : ℤ) : EvalRow :=
  let m := o.metricsAt c
  ⟨c, o.objective_function c, m.Lq, m.Wq, m.rho, rowMeetsSla sla_wq m.Wq⟩

/-- The loop of `optimize`: walks the candidate list carrying the running
best `(best_c, best_cost, best_metrics)` (`none` models the initial
`best_c = None / best_cost = np.inf`, under which `cost < best_cost` always
holds) and the accumulated `results` table. -/
def CostOptimizer.optLoop (o : CostOptimizer) (sla_wq : Option ℚ) :
    List ℤ → Option (ℤ × ℚ × Metrics) → List EvalRow →
    Option (ℤ × ℚ × Metrics) × List EvalRow
  | [], best, results => (best, results)
  | c :: cs, best, results =>
    let queue := MMcQueue.mk' o.lambda_rate o.mu_rate c
    if ¬ queue.is_stable then o.optLoop sla_wq cs best results
    else
      match queue.calculate_metrics with
      | .unstable _ _ => o.optLoop sla_wq cs best results
      | .stable m =>
        if (match sla_wq with | some s => decide (m.Wq > s) | none => false) then
          o.optLoop sla_wq cs best results
        else
          let cost := o.objective_function c
          let results := results ++ [o.mkRow sla_wq c]
          let best :=
            match best with
            | none => some (c, cost, m)
            | some (bc, bcost, bm) =>
                if cost < bcost then some (c, cost, m) else some (bc, bcost, bm)
          o.optLoop sla_wq cs best results

/-- The two shapes `optimize` returns: the infeasibility dict
`{success: False, message}` or the full success dict. -/
inductive OptimizationResult where
  | failure (message : String)
  | success (optimal_c : ℤ) (total_cost server_cost waiting_cost : ℚ)
      (metrics : Metrics) (all_results : List EvalRow) (sla_wq : Option ℚ)
deriving Repr, DecidableEq

/-- `CostOptimizer.optimize(c_min, c_max, sla_wq)`. -/
def CostOptimizer.optimize (o : CostOptimizer) (c_min c_max : ℤ)
    (sla_wq : Option ℚ) : OptimizationResult :=
  let c_stability := ⌈o.lambda_rate / o.mu_rate⌉ + 1
  let cMin := max c_min c_stability
  match o.optLoop sla_wq (pyRange cMin (c_max + 1)) none [] with
  | (none, _) => .failure ("No se encontró solución factible")
  | (some (best_c, best_cost, best_metrics), results) =>
      .success best_c best_cost ((best_c : ℚ) * o.cost_server)
        (best_metrics.Lq * o.cost_waiting) best_metrics results sla_wq

/-- The result dict of `sensitivity_analysis`: seven parallel lists, and the
`optimal_c` / `optimal_cost` keys that are only inserted when
`total_costs` is nonempty (absence modelled as `none`). -/
structure SensitivityResult where
  c_values : List ℤ
  total_costs : List ℚ
  server_costs : List ℚ
  waiting_costs : List ℚ
  utilizations : List ℚ
  wq_values : List ℚ
  lq_values : List ℚ
  optimal_c : Option ℤ
  optimal_cost : Option ℚ
deriving Repr, DecidableEq

/-- The loop of `sensitivity_analysis`: for each stable `c`, append to every
parallel list; unstable `c` are skipped. -/
def CostOptimizer.sensLoop (o : CostOptimizer) :
    List ℤ → SensitivityResult → SensitivityResult
  | [], acc => acc
  | c :: cs, acc =>
    let queue := MMcQueue.mk' o.lambda_rate o.mu_rate c
    if ¬ queue.is_stable then o.sensLoop cs acc
    else
      match queue.calculate_metrics with
      | .unstable _ _ => o.sensLoop cs acc
      | .stable m =>
        let server_cost := (c : ℚ) * o.cost_server
        let waiting_cost := m.Lq * o.cost_waiting
        let total_cost := server_cost + waiting_cost
        o.sensLoop cs
          { acc with
            c_values := acc.c_values ++ [c]
            total_costs := acc.total_costs ++ [total_cost]
            server_costs := acc.server_costs ++ [server_cost]
            waiting_costs := acc.waiting_costs ++ [waiting_cost]
            utilizations := acc.utilizations ++ [m.rho]
            wq_values := acc.wq_values ++ [m.Wq]
            lq_values := acc.lq_values ++ [m.Lq] }

/-- `np.argmin` over a list of costs paired with their `c` values: index of
the first minimum.  Only called on nonempty lists in the source. -/
def argminFirst : List (ℤ × ℚ) → Option (ℤ × ℚ)
  | [] => none
  | x :: xs =>
    match argminFirst xs with
    | none => some x
    | some y => if x.2 ≤ y.2 then some x else some y

/-- `CostOptimizer.sensitivity_analysis(c_range)`: run the per-`c` loop over
the supplied range (or the auto-derived `(c_stability, c_stability+20)`),
then, only if `total_costs` is nonempty, set `optimal_c` / `optimal_cost`
from the first minimum of `total_costs`. -/
def CostOptimizer.sensitivity_analysis (o : CostOptimizer)
    (c_range : Option (ℤ × ℤ)) : SensitivityResult :=
  let r :=
    match c_range with
    | some r => r
    | none =>
      let c_stability := ⌈o.lambda_rate / o.mu_rate⌉ + 1
      (c_stability, c_stability + 20)
  let acc := o.sensLoop (pyRange r.1 (r.2 + 1)) ⟨[], [], [], [], [], [], [], none, none⟩
  match argminFirst (acc.c_values.zip acc.total_costs) with
  | none => acc
  | some (bc, bcost) => { acc with optimal_c := some bc, optimal_cost := some bcost }

/-! ## Discrete-event simulator (`src/queue_models.py`, `QueueSimulator`)

The SimPy engine and the seeded NumPy draws are external libraries.  Their
combined effect on one run is deterministic: `run_simulation` first resets
the global generator with `np.random.seed(seed)`, builds a fresh
environment, and the event order is a pure function of the draws.  The
per-run samples are therefore modelled by an arbitrary function `gen` of
the seed and the four parameters — everything `run_simulation` itself does
(reset, run, append to the instance lists, compute the means, return the
lists) is embedded from the source. -/

/-- The samples one seeded SimPy run produces. -/
structure SimSamples where
  waits : List ℚ
  systems : List ℚ
  qlens : List ℕ
deriving Repr, DecidableEq

/-- A deterministic model of the seeded external machinery: seed, λ, μ, c,
sim_time ↦ that run's samples. -/
def SampleGen : Type := ℕ → ℚ → ℚ → ℕ → ℚ → SimSamples

/-- The state of a `QueueSimulator` object: parameters plus the three
instance lists, which `__init__` creates empty and `customer` /
`customer_generator` append to — no method ever clears them. -/
structure QueueSimulator where
  lambda_rate : ℚ
  mu_rate : ℚ
  c_servers : ℕ
  sim_time : ℚ
  wait_times : List ℚ
  system_times : List ℚ
  queue_lengths : List ℕ
deriving Repr, DecidableEq

/-- `QueueSimulator(lambda_rate, mu_rate, c_servers, sim_time)`. -/
def QueueSimulator.init (lambda_rate mu_rate : ℚ) (c_servers : ℕ)
    (sim_time : ℚ) : QueueSimulator :=
  ⟨lambda_rate, mu_rate, c_servers, sim_time, [], [], []⟩

/-- `np.mean`, totalized at `[]` (where NumPy yields NaN). -/
def npMean (l : List ℚ) : ℚ := l.sum / (l.length : ℚ)

/-- The dict `run_simulation` returns. -/
structure SimulationResult where
  Wq_simulated : ℚ
  W_simulated : ℚ
  Lq_simulated : ℚ
  L_simulated : ℚ
  total_customers : ℕ
  sim_time : ℚ
  wait_times : List ℚ
  system_times : List ℚ
  queue_lengths : List ℕ
deriving Repr, DecidableEq

/-- `QueueSimulator.run_simulation(seed)`: seed the generator, run the
environment (appending this run's samples — `gen` applied to the seed and
parameters — onto the instance lists), then return the metrics dict built
from those lists.  Returns the updated object state alongside the dict. -/
def QueueSimulator.run_simulation (gen : SampleGen) (sim : QueueSimulator)
    (seed : ℕ) : QueueSimulator × SimulationResult :=
  let s := gen seed sim.lambda_rate sim.mu_rate sim.c_servers sim.sim_time
  let wait_times := sim.wait_times ++ s.waits
  let system_times := sim.system_times ++ s.systems
  let queue_lengths := sim.queue_lengths ++ s.qlens
  let sim' := { sim with
    wait_times := wait_times
    system_times := system_times
    queue_lengths := queue_lengths }
  let lq_sim := npMean (queue_lengths.map (fun (n : ℕ) => (n : ℚ)))
  (sim',
    { Wq_simulated := npMean wait_times
      W_simulated := npMean system_times
      Lq_simulated := lq_sim
      L_simulated := lq_sim + sim.lambda_rate / sim.mu_rate
      total_customers := wait_times.length
      sim_time := sim.sim_time
      wait_times := wait_times
      system_times := system_times
      queue_lengths := queue_lengths })

/-! ## Distribution fitter (`src/distribution_fitter.py`)

`scipy.stats` distribution objects are external, so the per-family
maximum-likelihood machinery is modelled by a function `fitFn` from the
family name to `none` (the `except` path: `dist.fit` or `dist.logpdf`
raised) or `some (params, logLikelihood)`; `np.log` is likewise a
parameter `logFn`.  The batch loop, the AIC/BIC formulas, the cache field
and the best-fit scan are embedded from the source. -/

/-- One value of the `results` dict built by `fit_distributions`:
`params`, `log_likelihood`, `aic`, `bic` (the `dist_object` field carries
no data in the model). -/
structure FitInfo where
  params : List ℚ
  log_likelihood : ℚ
  aic : ℚ
  bic : ℚ
deriving Repr, DecidableEq

/-- The external per-family MLE: family name ↦ `none` on failure, or
`some (params, logLikelihood)` where `logLikelihood = Σ logpdf(data)`. -/
def FitFn : Type := String → Option (List ℚ × ℚ)

/-- `DistributionFitter.fit_distributions(data, distributions)`: try each
family in order; on an exception skip it (the dict gains no entry) and
continue; on success store `params` with `aic = 2k − 2·LL` and
`bic = k·log(n) − 2·LL`, `k = len(params)`, `n = len(data)`.  The insertion
order of the Python dict is the iteration order, modelled as an
association list. -/
def fit_distributions (fitFn : FitFn) (logFn : ℕ → ℚ) (n : ℕ) :
    List String → List (String × FitInfo)
  | [] => []
  | dist_name :: rest =>
    match fitFn dist_name with
    | none => fit_distributions fitFn logFn n rest
    | some (params, log_likelihood) =>
      let k := params.length
      let aic := 2 * (k : ℚ) - 2 * log_likelihood
      let bic := (k : ℚ) * logFn n - 2 * log_likelihood
      (dist_name, ⟨params, log_likelihood, aic, bic⟩) ::
        fit_distributions fitFn logFn n rest

/-- The default `distributions` argument. -/
def defaultDistributions : List String :=
  ["expon", "gamma", "lognorm", "weibull_min"]

/-- `info[criterion]` for `criterion ∈ {'aic', 'bic'}`. -/
def criterionValue (useBic : Bool) (info : FitInfo) : ℚ :=
  if useBic then info.bic else info.aic

/-- The scan inside `get_best_distribution`: iterate the cached dict in
insertion order, keeping the first entry whose criterion value is
strictly below the running best (initially `np.inf`, modelled by `none`
always losing). -/
def bestScan (useBic : Bool) :
    List (String × FitInfo) → Option (String × List ℚ × ℚ) →
    Option (String × List ℚ × ℚ)
  | [], best => best
  | (name, info) :: rest, best =>
    let value := criterionValue useBic info
    let best' :=
      match best with
      | none => some (name, info.params, value)
      | some (bn, bp, bv) =>
          if value < bv then some (name, info.params, value)
          else some (bn, bp, bv)
    bestScan useBic rest best'

/-- `DistributionFitter.get_best_distribution(data, criterion)`: refit only
when the cache `self.fitted_distributions` is empty; then return
`(best_name, best_params, best_value)` from the scan.  The data argument
(`fitFn`, `n`) is consulted only on the refit path.  Returns the updated
cache alongside the result triple (`none` models the `(None, None, inf)`
outcome on an empty cache). -/
def get_best_distribution (fitFn : FitFn) (logFn : ℕ → ℚ) (n : ℕ)
    (fitted_distributions : List (String × FitInfo)) (useBic : Bool) :
    List (String × FitInfo) × Option (String × List ℚ × ℚ) :=
  let cache :=
    if fitted_distributions.isEmpty then
      fit_distributions fitFn logFn n defaultDistributions
    else fitted_distributions
  (cache, bestScan useBic cache none)

/-- The dict returned by `goodness_of_fit_tests`: exactly these four keys,
in every case. -/
structure GofResult where
  ks_statistic : ℚ
  ks_pvalue : ℚ
  chi2_statistic : ℚ
  chi2_pvalue : ℚ
deriving Repr, DecidableEq

/-- The Pearson statistic `scipy.stats.chisquare` computes:
`Σ (observed − expected)² / expected` over paired bins. -/
def chisquareStat (pairs : List (ℚ × ℚ)) : ℚ :=
  (pairs.map (fun p => (p.1 - p.2) ^ 2 / p.2)).sum

/-- The `expected` list of `goodness_of_fit_tests`:
`(cdf(edge_{i+1}) − cdf(edge_i)) · len(data)` for each of the
`len(bin_edges) − 1` bins. -/
def expectedCounts (cdf : ℚ → ℚ) (nData : ℕ) (bin_edges : List ℚ) : List ℚ :=
  (List.range (bin_edges.length - 1)).map
    (fun i => (cdf (bin_edges.getD (i + 1) 0) - cdf (bin_edges.getD i 0)) * (nData : ℚ))

/-- `DistributionFitter.goodness_of_fit_tests` from the `observed,
bin_edges = np.histogram(data, bins=20)` line on.  The fitted CDF
(`dist.cdf(·, *params)`), the KS test (`stats.kstest`) and the chi-square
survival function behind `chisquare`'s p-value are external `scipy`
calls, passed in as `cdf`, `ks` and `chi2sf`; the expected-count
construction, the `expected > 5` mask and the Pearson statistic over the
surviving bins are embedded from the source.  `df` passed to `chi2sf` is
`len(surviving bins) − 1`. -/
def goodness_of_fit_tests (ks : ℚ × ℚ) (chi2sf : ℚ → ℤ → ℚ) (cdf : ℚ → ℚ)
    (nData : ℕ) (observed : List ℕ) (bin_edges : List ℚ) : GofResult :=
  let expected := expectedCounts cdf nData bin_edges
  let pairs := (observed.map (fun (n : ℕ) => (n : ℚ))).zip expected
  let kept := pairs.filter (fun p => decide (p.2 > 5))
  let stat := chisquareStat kept
  { ks_statistic := ks.1
    ks_pvalue := ks.2
    chi2_statistic := stat
    chi2_pvalue := chi2sf stat ((kept.length : ℤ) - 1) }

/-! ## Numerical form of `_calculate_p0` (claim C2)

`_calculate_p0` builds each summand of `Σ_{n<c} (λ/μ)^n/n!` from the naive
power `(λ/μ)**n` and `factorial(n)`.  In float64 those intermediates round
to infinity as soon as their magnitude reaches `2^1024`
(`factorial(n) = inf` for every `n ≥ 171`), which the spec's term-by-term
recurrence `term_0 = 1, term_n = term_{n-1}·(λ/μ)/n` avoids.  Exact
rational magnitudes stand in for the float64 values. -/

/-- The pair of intermediate magnitudes — naive power and factorial — that
the source's list comprehension computes for each `n < c`. -/
def naiveTermIntermediates (r : ℚ) (c : ℕ) : List (ℚ × ℚ) :=
  (List.range c).map (fun n => (r ^ n, (n.factorial : ℚ)))

/-- Modelled from the spec: the iterative accumulation
`term_0 = 1, term_n = term_{n-1}·(λ/μ)/n` that the spec prescribes for
`_calculate_p0` in place of naive factorial powers. -/
def specIterTerm (r : ℚ) : ℕ → ℚ
  | 0 => 1
  | n + 1 => specIterTerm r n * r / (n + 1 : ℕ)

/-- The smallest magnitude that rounds to `inf` in IEEE-754 float64. -/
def float64OverflowBound : ℚ := 2 ^ 1024

/-- The tie-breaking best update of `optimize`'s loop, isolated for the
argmin argument: replace the running best exactly when the new cost is
strictly smaller (`if cost < best_cost`). -/
def CostOptimizer.bestUpdate (o : CostOptimizer) (best : Option (ℤ × ℚ × Metrics))
    (c : ℤ) : Option (ℤ × ℚ × Metrics) :=
  match best with
  | none => some (c, o.objective_function c, o.metricsAt c)
  | some (bc, bcost, bm) =>
      if o.objective_function c < bcost then some (c, o.objective_function c, o.metricsAt c)
      else some (bc, bcost, bm)

/-! ## Basic lemmas -/

theorem mem_pyRange {a b c : ℤ} : c ∈ pyRange a b ↔ a ≤ c ∧ c < b := by
  unfold pyRange
  simp only [List.mem_map, List.mem_range]
  constructor
  · rintro ⟨i, hi, rfl⟩
    omega
  · rintro ⟨h1, h2⟩
    exact ⟨(c - a).toNat, by omega, by omega⟩

theorem pyRange_pairwise (a b : ℤ) : (pyRange a b).Pairwise (· < ·) := by
  unfold pyRange
  exact List.pairwise_map.mpr
    ((List.pairwise_lt_range _).imp (fun h => by omega))

theorem specIterTerm_eq (r : ℚ) : ∀ n, specIterTerm r n = r ^ n / (n.factorial : ℚ)
  | 0 => by simp [specIterTerm]
  | n + 1 => by
    rw [specIterTerm, specIterTerm_eq r n, pow_succ, Nat.factorial_succ]
    push_cast
    rw [div_mul_eq_mul_div, div_div]
    ring

/-! ## Claim C4: Little's law for the analytic metrics -/

/-- C4: for every stable configuration (λ>0, μ>0, c≥1, metrics returned
through the stable branch), the metrics satisfy Little's Law exactly in
rational arithmetic: `L = λ·W` and `Lq = λ·Wq`, as a consequence of
`Lq = Pwait·ρ/(1−ρ)`, `Wq = Lq/λ`, `L = Lq + λ/μ`, `W = Wq + 1/μ`. -/
theorem C4_littles_law (lam mu : ℚ) (c : ℤ) (m : Metrics)
    (hlam : 0 < lam) (hmu : 0 < mu) (hc : 1 ≤ c)
    (h : (MMcQueue.mk' lam mu c).calculate_metrics = .stable m) :
    m.L = lam * m.W ∧ m.Lq = lam * m.Wq := by
  have hl : lam ≠ 0 := ne_of_gt hlam
  by_cases hs : (MMcQueue.mk' lam mu c).is_stable
  · rw [MMcQueue.calculate_metrics_of_stable _ hs] at h
    simp only [MetricsResult.stable.injEq] at h
    subst h
    have key1 : ∀ x : ℚ, x + lam / mu = lam * (x / lam + 1 / mu) := by
      intro x
      rw [mul_add, mul_one_div lam mu, mul_comm lam _, div_mul_cancel₀ _ hl]
    have key2 : ∀ x : ℚ, x = lam * (x / lam) := by
      intro x
      rw [mul_comm lam _, div_mul_cancel₀ _ hl]
    simp only [MMcQueue.stableMetrics, MMcQueue.mk']
    exact ⟨key1 _, key2 _⟩
  · simp [MMcQueue.calculate_metrics, hs] at h

/-- C4 witness: the concrete stable configuration λ=120, μ=30, c=5. -/
theorem C4_littles_law_witness :
    (MMcQueue.mk' 120 30 5).calculate_metrics
      = .stable ⟨4/5, 80, 1/77, 128/231, 512/231, 1436/231, 64/3465, 359/6930, 120, 30, 5⟩ ∧
    ((1436 : ℚ)/231 = 120 * (359/6930) ∧ (512 : ℚ)/231 = 120 * (64/3465)) := by
  have hm : (MMcQueue.mk' 120 30 5).calculate_metrics
      = .stable ⟨4/5, 80, 1/77, 128/231, 512/231, 1436/231, 64/3465, 359/6930, 120, 30, 5⟩ := by
    norm_num [MMcQueue.calculate_metrics, MMcQueue.is_stable, MMcQueue.stableMetrics,
      MMcQueue.mk', MMcQueue.calculate_p0, scipyFactorial, List.range_succ, Nat.factorial,
      (show ((5 : ℤ)).toNat = 5 by rfl)]
  exact ⟨hm, C4_littles_law 120 30 5 _ (by norm_num) (by norm_num) (by norm_num) hm⟩

/-! ## Claim C3: constructor validation -/

/-- C3 counterexample: constructing with λ = −5 ≤ 0 (μ=1, c=1) raises
nothing — construction succeeds and `calculate_metrics` produces a fully
populated record from the invalid configuration. -/
theorem C3_counterexample :
    MMcQueue.init (-5) 1 1 = some (MMcQueue.mk' (-5) 1 1) ∧
    (MMcQueue.mk' (-5) 1 1).calculate_metrics
      = .stable ⟨-5, -500, 6, -5, 25/6, -5/6, -5/6, 1/6, -5, 1, 1⟩ := by
  constructor
  · rw [MMcQueue.init_eq_mk]
    norm_num
  · norm_num [MMcQueue.calculate_metrics, MMcQueue.is_stable, MMcQueue.stableMetrics,
      MMcQueue.mk', MMcQueue.calculate_p0, scipyFactorial, List.range_succ, Nat.factorial,
      (show ((1 : ℤ)).toNat = 1 by rfl)]

/-- C3 amended: construction performs no parameter validation at all.  It
fails only with the `ZeroDivisionError` arising from `ρ = λ/(c·μ)` when
`c·μ = 0` (in particular c = 0); any other values — λ ≤ 0, μ < 0,
negative c — are accepted and stored unchanged (never clamped). -/
theorem C3_no_validation (lam mu : ℚ) (c : ℤ) :
    (MMcQueue.init lam mu c = none ↔ (c : ℚ) * mu = 0) ∧
    ∀ q, MMcQueue.init lam mu c = some q →
      q.lambda_rate = lam ∧ q.mu_rate = mu ∧ q.c = c := by
  by_cases h : (c : ℚ) * mu = 0
  · constructor
    · simp [MMcQueue.init, h]
    · intro q hq
      simp [MMcQueue.init, h] at hq
  · constructor
    · simp [MMcQueue.init, h]
    · intro q hq
      simp only [MMcQueue.init, if_neg h, Option.some.injEq] at hq
      rw [← hq]
      exact ⟨rfl, rfl, rfl⟩

/-- C3 amended witness: c = 0 does fail at construction (division by zero),
by the amended theorem applied at λ=0, μ=1, c=0. -/
theorem C3_no_validation_witness : MMcQueue.init 0 1 0 = none :=
  (C3_no_validation 0 1 0).1.mpr (by norm_num)

/-! ## Claim C10: sensitivity analysis with no stable c -/

theorem CostOptimizer.sensLoop_skip_all (o : CostOptimizer) :
    ∀ (L : List ℤ) (acc : SensitivityResult),
      (∀ c ∈ L, (MMcQueue.mk' o.lambda_rate o.mu_rate c).is_stable = false) →
      o.sensLoop L acc = acc
  | [], acc, _ => rfl
  | c :: cs, acc, h => by
    have hc := h c (List.mem_cons_self c cs)
    rw [CostOptimizer.sensLoop, if_pos (by simp [hc])]
    exact CostOptimizer.sensLoop_skip_all o cs acc
      (fun x hx => h x (List.mem_cons_of_mem _ hx))

/-- C10: when no integer in the sensitivity range gives a stable queue,
`sensitivity_analysis` returns the record whose seven metric/cost lists
are all empty and whose `optimal_c` / `optimal_cost` keys are absent
(`none`) — there is no success flag or diagnostic anywhere in it. -/
theorem C10_sensitivity_all_unstable (lam mu cs cw : ℚ) (c_range : Option (ℤ × ℤ))
    (h : ∀ c ∈ pyRange
        (match c_range with
          | some r => r
          | none => (⌈lam / mu⌉ + 1, ⌈lam / mu⌉ + 1 + 20)).1
        ((match c_range with
          | some r => r
          | none => (⌈lam / mu⌉ + 1, ⌈lam / mu⌉ + 1 + 20)).2 + 1),
        (MMcQueue.mk' lam mu c).is_stable = false) :
    (⟨lam, mu, cs, cw⟩ : CostOptimizer).sensitivity_analysis c_range
      = ⟨[], [], [], [], [], [], [], none, none⟩ := by
  cases c_range with
  | none =>
    have hloop := CostOptimizer.sensLoop_skip_all (⟨lam, mu, cs, cw⟩ : CostOptimizer)
      (pyRange (⌈lam / mu⌉ + 1) (⌈lam / mu⌉ + 1 + 20 + 1))
      ⟨[], [], [], [], [], [], [], none, none⟩ (fun c hc => h c hc)
    simp only [CostOptimizer.sensitivity_analysis, hloop]
    rfl
  | some r =>
    have hloop := CostOptimizer.sensLoop_skip_all (⟨lam, mu, cs, cw⟩ : CostOptimizer)
      (pyRange r.1 (r.2 + 1))
      ⟨[], [], [], [], [], [], [], none, none⟩ (fun c hc => h c hc)
    simp only [CostOptimizer.sensitivity_analysis, hloop]
    rfl

/-- C10 witness: λ=120, μ=30 and explicit range (1,3) — every c in it has
ρ ≥ 4/3 > 1, so all lists come back empty and both optional keys absent. -/
theorem C10_sensitivity_all_unstable_witness :
    (⟨120, 30, 50, 20⟩ : CostOptimizer).sensitivity_analysis (some (1, 3))
      = ⟨[], [], [], [], [], [], [], none, none⟩ :=
  C10_sensitivity_all_unstable 120 30 50 20 (some (1, 3))
    (by with_unfolding_all decide)

/-! ## Claims C1 and C6: the optimizer loop -/

/-- The candidate values that survive both `continue` filters of
`optimize`: the integers of `range(max(c_min, ⌈λ/μ⌉+1), c_max+1)` that
are stable and SLA-feasible. -/
def CostOptimizer.feasibleSet (o : CostOptimizer) (c_min c_max : ℤ)
    (sla : Option ℚ) : List ℤ :=
  (pyRange (max c_min (⌈o.lambda_rate / o.mu_rate⌉ + 1)) (c_max + 1)).filter
    (o.passesFilters sla)

theorem CostOptimizer.optLoop_eq (o : CostOptimizer) (sla : Option ℚ) (L : List ℤ) :
    ∀ (best : Option (ℤ × ℚ × Metrics)) (rows : List EvalRow),
      o.optLoop sla L best rows =
        ((L.filter (o.passesFilters sla)).foldl o.bestUpdate best,
         rows ++ (L.filter (o.passesFilters sla)).map (o.mkRow sla)) := by
  induction L with
  | nil =>
    intro best rows
    simp [CostOptimizer.optLoop]
  | cons c cs ih =>
    intro best rows
    rcases Bool.eq_false_or_eq_true
        ((MMcQueue.mk' o.lambda_rate o.mu_rate c).is_stable) with hst | hst
    · have hm : (MMcQueue.mk' o.lambda_rate o.mu_rate c).calculate_metrics
          = .stable (o.metricsAt c) := MMcQueue.calculate_metrics_of_stable _ hst
      cases sla with
      | none =>
        have hp : o.passesFilters none c = true := by
          simp [CostOptimizer.passesFilters, hst]
        rcases best with _ | ⟨bc, bcost, bm⟩ <;>
          simp [CostOptimizer.optLoop, hst, hm, List.filter_cons, hp, ih,
            CostOptimizer.bestUpdate]
      | some s =>
        rcases Bool.eq_false_or_eq_true (decide ((o.metricsAt c).Wq > s)) with hw | hw
        · have hp : o.passesFilters (some s) c = false := by
            simp only [CostOptimizer.passesFilters, hst, Bool.true_and, decide_not, hw,
              Bool.not_true]
          simp [CostOptimizer.optLoop, hst, hm, hw, List.filter_cons, hp, ih]
        · have hp : o.passesFilters (some s) c = true := by
            simp only [CostOptimizer.passesFilters, hst, Bool.true_and, decide_not, hw,
              Bool.not_false]
          rcases best with _ | ⟨bc, bcost, bm⟩ <;>
            simp [CostOptimizer.optLoop, hst, hm, hw, List.filter_cons, hp, ih,
              CostOptimizer.bestUpdate]
    · have hp : o.passesFilters sla c = false := by
        simp [CostOptimizer.passesFilters, hst]
      simp [CostOptimizer.optLoop, hst, List.filter_cons, hp, ih]

theorem CostOptimizer.bestFold_invariant (o : CostOptimizer) (L : List ℤ) :
    ∀ (b : ℤ),
      (∀ x ∈ L, b < x) → L.Pairwise (· < ·) →
      ∃ b2,
        L.foldl o.bestUpdate (some (b, o.objective_function b, o.metricsAt b)) =
          some (b2, o.objective_function b2, o.metricsAt b2) ∧
        (b2 = b ∨ b2 ∈ L) ∧
        o.objective_function b2 ≤ o.objective_function b ∧
        (∀ c ∈ L, o.objective_function b2 ≤ o.objective_function c) ∧
        (∀ c, (c = b ∨ c ∈ L) →
          o.objective_function c = o.objective_function b2 → b2 ≤ c) := by
  induction L with
  | nil =>
    intro b _ _
    refine ⟨b, rfl, Or.inl rfl, le_refl _, ?_, ?_⟩
    · intro c hc
      exact absurd hc (List.not_mem_nil c)
    · rintro c (rfl | hc) _
      · exact le_refl c
      · exact absurd hc (List.not_mem_nil c)
  | cons x xs ih =>
    intro b hb hpw
    have hbx : b < x := hb x (List.mem_cons_self x xs)
    obtain ⟨hx_lt, hpw2⟩ := List.pairwise_cons.mp hpw
    rw [List.foldl_cons]
    by_cases hcmp : o.objective_function x < o.objective_function b
    · have hupd : o.bestUpdate (some (b, o.objective_function b, o.metricsAt b)) x
          = some (x, o.objective_function x, o.metricsAt x) := by
        simp [CostOptimizer.bestUpdate, hcmp]
      rw [hupd]
      obtain ⟨b2, heq, hmem, hle, hall, hties⟩ := ih x hx_lt hpw2
      refine ⟨b2, heq, ?_, le_trans hle (le_of_lt hcmp), ?_, ?_⟩
      · rcases hmem with rfl | h2
        · exact Or.inr (List.mem_cons_self _ _)
        · exact Or.inr (List.mem_cons_of_mem _ h2)
      · intro c hc
        rcases List.mem_cons.mp hc with rfl | h2
        · exact hle
        · exact hall c h2
      · rintro c (rfl | hc2) hceq
        · exact absurd hceq (ne_of_gt (lt_of_le_of_lt hle hcmp))
        · rcases List.mem_cons.mp hc2 with rfl | h3
          · exact hties c (Or.inl rfl) hceq
          · exact hties c (Or.inr h3) hceq
    · have hupd : o.bestUpdate (some (b, o.objective_function b, o.metricsAt b)) x
          = some (b, o.objective_function b, o.metricsAt b) := by
        simp [CostOptimizer.bestUpdate, hcmp]
      rw [hupd]
      have hb2 : ∀ y ∈ xs, b < y := fun y hy => hb y (List.mem_cons_of_mem _ hy)
      obtain ⟨b2, heq, hmem, hle, hall, hties⟩ := ih b hb2 hpw2
      refine ⟨b2, heq, ?_, hle, ?_, ?_⟩
      · rcases hmem with rfl | h2
        · exact Or.inl rfl
        · exact Or.inr (List.mem_cons_of_mem _ h2)
      · intro c hc
        rcases List.mem_cons.mp hc with rfl | h2
        · exact le_trans hle (not_lt.mp hcmp)
        · exact hall c h2
      · rintro c (rfl | hc2) hceq
        · exact hties c (Or.inl rfl) hceq
        · rcases List.mem_cons.mp hc2 with rfl | h3
          · have hzb : o.objective_function b = o.objective_function b2 :=
              le_antisymm (hceq ▸ not_lt.mp hcmp) hle
            have hb2b : b2 ≤ b := hties b (Or.inl rfl) hzb
            exact le_of_lt (lt_of_le_of_lt hb2b hbx)
          · exact hties c (Or.inr h3) hceq

theorem CostOptimizer.objective_of_stable (o : CostOptimizer) (c : ℤ)
    (h0 : 0 < c) (hs : (MMcQueue.mk' o.lambda_rate o.mu_rate c).is_stable = true) :
    o.objective_function c
      = (c : ℚ) * o.cost_server + (o.metricsAt c).Lq * o.cost_waiting := by
  have hm : (MMcQueue.mk' o.lambda_rate o.mu_rate c).calculate_metrics
      = .stable (o.metricsAt c) := MMcQueue.calculate_metrics_of_stable _ hs
  simp [CostOptimizer.objective_function, not_le.mpr h0, hs, hm]

theorem CostOptimizer.optimize_characterization (o : CostOptimizer)
    (c_min c_max : ℤ) (sla : Option ℚ) :
    o.optimize c_min c_max sla =
      match (o.feasibleSet c_min c_max sla).foldl o.bestUpdate none with
      | none => .failure ("No se encontró solución factible")
      | some (bc, bcost, bm) =>
          .success bc bcost ((bc : ℚ) * o.cost_server) (bm.Lq * o.cost_waiting) bm
            ((o.feasibleSet c_min c_max sla).map (o.mkRow sla)) sla := by
  simp only [CostOptimizer.optimize, CostOptimizer.optLoop_eq, List.nil_append,
    CostOptimizer.feasibleSet]
  cases hF : (List.filter (o.passesFilters sla)
      (pyRange (max c_min (⌈o.lambda_rate / o.mu_rate⌉ + 1)) (c_max + 1))).foldl
      o.bestUpdate none with
  | none => simp [hF]
  | some t =>
    obtain ⟨bc, bcost, bm⟩ := t
    simp [hF]

theorem CostOptimizer.feasibleSet_pairwise (o : CostOptimizer)
    (c_min c_max : ℤ) (sla : Option ℚ) :
    (o.feasibleSet c_min c_max sla).Pairwise (· < ·) :=
  (pyRange_pairwise _ _).sublist (List.filter_sublist _)

theorem CostOptimizer.feasibleSet_pos (o : CostOptimizer) (c_min c_max : ℤ)
    (sla : Option ℚ) (hlam : 0 < o.lambda_rate) (hmu : 0 < o.mu_rate) :
    ∀ c ∈ o.feasibleSet c_min c_max sla,
      0 < c ∧ (MMcQueue.mk' o.lambda_rate o.mu_rate c).is_stable = true := by
  intro c hc
  obtain ⟨hcr, hcp⟩ := List.mem_filter.mp hc
  have h1 : 0 < ⌈o.lambda_rate / o.mu_rate⌉ := Int.ceil_pos.mpr (div_pos hlam hmu)
  have h2 : ⌈o.lambda_rate / o.mu_rate⌉ + 1
      ≤ max c_min (⌈o.lambda_rate / o.mu_rate⌉ + 1) := le_max_right _ _
  have h3 := (mem_pyRange.mp hcr).1
  have hcp2 := hcp
  unfold CostOptimizer.passesFilters at hcp2
  rw [Bool.and_eq_true] at hcp2
  exact ⟨by omega, hcp2.1⟩

/-- C1: with λ,μ > 0, `optimize` evaluates exactly the integers of
`[max(cMin, ⌈λ/μ⌉+1), cMax]`, skipping each c that is unstable or whose Wq
exceeds the SLA (the surviving set is `feasibleSet`); it succeeds exactly
when that set is nonempty; the evaluation table is that set in ascending
order of c; and the returned `optimal_c` is the smallest feasible c
attaining the minimal cost `Z(c) = c·serverCost + Lq(c)·waitingCost`
(first minimum wins on ties under a strict `<` update). -/
theorem C1_optimize_exhaustive_argmin (o : CostOptimizer) (c_min c_max : ℤ)
    (sla : Option ℚ) (hlam : 0 < o.lambda_rate) (hmu : 0 < o.mu_rate) :
    (∀ c ∈ o.feasibleSet c_min c_max sla,
        o.objective_function c
          = (c : ℚ) * o.cost_server + (o.metricsAt c).Lq * o.cost_waiting) ∧
    (o.feasibleSet c_min c_max sla ≠ [] →
      ∃ oc rows, o.optimize c_min c_max sla
        = .success oc (o.objective_function oc) ((oc : ℚ) * o.cost_server)
            ((o.metricsAt oc).Lq * o.cost_waiting) (o.metricsAt oc) rows sla) ∧
    (∀ oc tc sc wc m rows s,
      o.optimize c_min c_max sla = .success oc tc sc wc m rows s →
        rows = (o.feasibleSet c_min c_max sla).map (o.mkRow sla) ∧
        rows.map EvalRow.c = o.feasibleSet c_min c_max sla ∧
        (o.feasibleSet c_min c_max sla).Pairwise (· < ·) ∧
        oc ∈ o.feasibleSet c_min c_max sla ∧
        tc = o.objective_function oc ∧
        sc = (oc : ℚ) * o.cost_server ∧
        wc = (o.metricsAt oc).Lq * o.cost_waiting ∧
        m = o.metricsAt oc ∧
        s = sla ∧
        (∀ c ∈ o.feasibleSet c_min c_max sla, tc ≤ o.objective_function c) ∧
        (∀ c ∈ o.feasibleSet c_min c_max sla,
          o.objective_function c = tc → oc ≤ c)) := by
  have hpw := o.feasibleSet_pairwise c_min c_max sla
  have hmain : ∀ f rest, o.feasibleSet c_min c_max sla = f :: rest →
      ∃ b2, (o.feasibleSet c_min c_max sla).foldl o.bestUpdate none
          = some (b2, o.objective_function b2, o.metricsAt b2) ∧
        b2 ∈ o.feasibleSet c_min c_max sla ∧
        (∀ c ∈ o.feasibleSet c_min c_max sla,
          o.objective_function b2 ≤ o.objective_function c) ∧
        (∀ c ∈ o.feasibleSet c_min c_max sla,
          o.objective_function c = o.objective_function b2 → b2 ≤ c) := by
    intro f rest hfe
    rw [hfe] at hpw ⊢
    obtain ⟨hf_lt, hpw2⟩ := List.pairwise_cons.mp hpw
    rw [List.foldl_cons]
    have hupd : o.bestUpdate none f
        = some (f, o.objective_function f, o.metricsAt f) := rfl
    rw [hupd]
    obtain ⟨b2, heq, hmem, hle, hall, hties⟩ := o.bestFold_invariant rest f hf_lt hpw2
    refine ⟨b2, heq, ?_, ?_, ?_⟩
    · rcases hmem with rfl | h2
      · exact List.mem_cons_self _ _
      · exact List.mem_cons_of_mem _ h2
    · intro c hc
      rcases List.mem_cons.mp hc with rfl | h2
      · exact hle
      · exact hall c h2
    · intro c hc hceq
      rcases List.mem_cons.mp hc with rfl | h2
      · exact hties c (Or.inl rfl) hceq
      · exact hties c (Or.inr h2) hceq
  refine ⟨?_, ?_, ?_⟩
  · intro c hc
    obtain ⟨h0, hs⟩ := o.feasibleSet_pos c_min c_max sla hlam hmu c hc
    exact o.objective_of_stable c h0 hs
  · intro hne
    obtain ⟨f, rest, hfe⟩ : ∃ f rest, o.feasibleSet c_min c_max sla = f :: rest := by
      rcases hx : o.feasibleSet c_min c_max sla with _ | ⟨f, rest⟩
      · exact absurd hx hne
      · exact ⟨f, rest, rfl⟩
    obtain ⟨b2, hfold, hmem, hmin, hties⟩ := hmain f rest hfe
    refine ⟨b2, (o.feasibleSet c_min c_max sla).map (o.mkRow sla), ?_⟩
    rw [o.optimize_characterization c_min c_max sla, hfold]
  · intro oc tc sc wc m rows s h
    rw [o.optimize_characterization c_min c_max sla] at h
    rcases hx : o.feasibleSet c_min c_max sla with _ | ⟨f, rest⟩
    · rw [hx] at h
      simp at h
    · obtain ⟨b2, hfold, hmem, hmin, hties⟩ := hmain f rest hx
      rw [hfold] at h
      simp only [OptimizationResult.success.injEq] at h
      obtain ⟨h1, h2, h3, h4, h5, h6, h7⟩ := h
      subst h1 h2 h3 h4 h5 h6 h7
      rw [← hx]
      refine ⟨rfl, ?_, hpw, hmem, rfl, rfl, rfl, rfl, rfl, hmin, hties⟩
      rw [List.map_map]
      have hid : (EvalRow.c ∘ o.mkRow sla) = id := by
        funext c
        rfl
      rw [hid, List.map_id]

/-- C1 witness: λ=120, μ=30, serverCost=50, waitingCost=20, range [1,6],
no SLA — the feasible set is nonempty, so `optimize` succeeds with the
argmin structure of the theorem. -/
theorem C1_optimize_exhaustive_argmin_witness :
    ∃ oc rows, (⟨120, 30, 50, 20⟩ : CostOptimizer).optimize 1 6 none
      = .success oc ((⟨120, 30, 50, 20⟩ : CostOptimizer).objective_function oc)
          ((oc : ℚ) * 50)
          (((⟨120, 30, 50, 20⟩ : CostOptimizer).metricsAt oc).Lq * 20)
          ((⟨120, 30, 50, 20⟩ : CostOptimizer).metricsAt oc) rows none :=
  (C1_optimize_exhaustive_argmin ⟨120, 30, 50, 20⟩ 1 6 none (by norm_num)
    (by norm_num)).2.1 (by with_unfolding_all decide)

/-- C6: when no integer in the scanned range passes the stability and SLA
filters, `optimize` returns the structured infeasibility value — success
false with the diagnostic message, carrying no `optimal_c` (the `failure`
shape has no such field) — and, being a total function, raises nothing. -/
theorem C6_optimize_infeasible (o : CostOptimizer) (c_min c_max : ℤ)
    (sla : Option ℚ) (h : o.feasibleSet c_min c_max sla = []) :
    o.optimize c_min c_max sla
      = .failure ("No se encontró solución factible") := by
  rw [o.optimize_characterization c_min c_max sla, h]
  rfl

/-- C6 witness: λ=120, μ=30 and cMax=4 < ⌈λ/μ⌉+1 = 5 — the scanned range
is empty, so `optimize` reports the structured failure. -/
theorem C6_optimize_infeasible_witness :
    (⟨120, 30, 50, 20⟩ : CostOptimizer).optimize 1 4 none
      = .failure ("No se encontró solución factible") :=
  C6_optimize_infeasible ⟨120, 30, 50, 20⟩ 1 4 none (by with_unfolding_all decide)

/-! ## Claim C2: numerical form of the P0 summation -/

set_option maxRecDepth 4000 in
/-- C2 (against the code): at the stable configuration λ=150, μ=1, c=300
(ρ=1/2), the source's per-term computation of `_calculate_p0` produces an
intermediate — both the naive power `(λ/μ)^171` and `factorial(171)` —
whose magnitude is at least `2^1024` and therefore rounds to infinity in
float64, while every term of the spec's prescribed iterative recurrence
`term_0 = 1, term_n = term_{n-1}·(λ/μ)/n` stays strictly below that
overflow bound for all n ≤ 300. -/
theorem C2_p0_naive_overflow :
    (MMcQueue.mk' 150 1 300).is_stable = true ∧
    (∃ p ∈ naiveTermIntermediates 150 300,
        float64OverflowBound ≤ p.1 ∧ float64OverflowBound ≤ p.2) ∧
    (∀ n ≤ 300, specIterTerm 150 n < float64OverflowBound) := by
  refine ⟨by with_unfolding_all decide, ?_, ?_⟩
  · have hn1 : (2 : ℕ) ^ 1024 ≤ 150 ^ 171 := by with_unfolding_all decide
    have hn2 : (2 : ℕ) ^ 1024 ≤ (171 : ℕ).factorial := by with_unfolding_all decide
    refine ⟨((150 : ℚ) ^ 171, ((171 : ℕ).factorial : ℚ)), ?_, ?_, ?_⟩
    · exact List.mem_map.mpr ⟨171, List.mem_range.mpr (by norm_num), rfl⟩
    · show float64OverflowBound ≤ (150 : ℚ) ^ 171
      unfold float64OverflowBound
      exact_mod_cast hn1
    · show float64OverflowBound ≤ ((171 : ℕ).factorial : ℚ)
      unfold float64OverflowBound
      exact_mod_cast hn2
  · intro n hn
    have hall : ((List.range 301).all
        (fun m => decide ((150 : ℕ) ^ m < 2 ^ 1024 * m.factorial))) = true := by
      with_unfolding_all decide
    have h1 : (150 : ℕ) ^ n < 2 ^ 1024 * n.factorial :=
      of_decide_eq_true
        (List.all_eq_true.mp hall n (List.mem_range.mpr (by omega)))
    rw [specIterTerm_eq]
    rw [div_lt_iff₀ (Nat.cast_pos.mpr n.factorial_pos)]
    unfold float64OverflowBound
    exact_mod_cast h1

/-- C2 witness: the overflow-free bound applied at n = 0. -/
theorem C2_p0_naive_overflow_witness :
    specIterTerm 150 0 < float64OverflowBound :=
  C2_p0_naive_overflow.2.2 0 (by norm_num)

/-! ## Claim C5: simulation determinism across runs -/

/-- C5 counterexample: with a fixed deterministic sample generator, a
second `run_simulation` call with the same seed on the same simulator
object returns a different (longer) wait-time sequence than the first
call, because the instance lists are never cleared between runs. -/
theorem C5_counterexample :
    (((QueueSimulator.init 1 1 1 10).run_simulation
          (fun _ _ _ _ _ => ⟨[1], [2], [0]⟩) 42).1.run_simulation
          (fun _ _ _ _ _ => ⟨[1], [2], [0]⟩) 42).2.wait_times
      ≠ ((QueueSimulator.init 1 1 1 10).run_simulation
          (fun _ _ _ _ _ => ⟨[1], [2], [0]⟩) 42).2.wait_times := by
  with_unfolding_all decide

/-- C5 amended: a run's returned samples are the object's accumulated
lists extended with the seeded generator output for the run parameters.
Hence a first run on a freshly constructed simulator returns exactly the
generator output — identical across runs with identical seed and
parameters — while successive runs on the same object accumulate. -/
theorem C5_run_accumulates (gen : SampleGen) (sim : QueueSimulator)
    (seed : ℕ) (lam mu : ℚ) (c : ℕ) (t : ℚ) :
    ((sim.run_simulation gen seed).2.wait_times
        = sim.wait_times
          ++ (gen seed sim.lambda_rate sim.mu_rate sim.c_servers sim.sim_time).waits ∧
      (sim.run_simulation gen seed).2.system_times
        = sim.system_times
          ++ (gen seed sim.lambda_rate sim.mu_rate sim.c_servers sim.sim_time).systems ∧
      (sim.run_simulation gen seed).2.queue_lengths
        = sim.queue_lengths
          ++ (gen seed sim.lambda_rate sim.mu_rate sim.c_servers sim.sim_time).qlens) ∧
    ((QueueSimulator.init lam mu c t).run_simulation gen seed).2.wait_times
      = (gen seed lam mu c t).waits := by
  refine ⟨⟨rfl, rfl, rfl⟩, ?_⟩
  simp [QueueSimulator.run_simulation, QueueSimulator.init]

/-! ## Claim C7: per-family fit failures and AIC/BIC -/

/-- C7: a family whose external MLE fails is skipped without aborting the
batch — every family whose fit succeeds appears in the result regardless
of other families failing — and every stored entry carries
`aic = 2k − 2·logLikelihood` and `bic = k·log(n) − 2·logLikelihood` with
`k` the family's parameter count. -/
theorem C7_fit_batch_independent (fitFn : FitFn) (logFn : ℕ → ℚ) (n : ℕ)
    (families : List String) :
    (∀ name ∈ families, ∀ params ll, fitFn name = some (params, ll) →
      (name, (⟨params, ll, 2 * (params.length : ℚ) - 2 * ll,
          (params.length : ℚ) * logFn n - 2 * ll⟩ : FitInfo))
        ∈ fit_distributions fitFn logFn n families) ∧
    (∀ name info, (name, info) ∈ fit_distributions fitFn logFn n families →
      fitFn name = some (info.params, info.log_likelihood) ∧
      info.aic = 2 * (info.params.length : ℚ) - 2 * info.log_likelihood ∧
      info.bic = (info.params.length : ℚ) * logFn n - 2 * info.log_likelihood) := by
  induction families with
  | nil =>
    constructor
    · intro name h
      exact absurd h (List.not_mem_nil _)
    · intro name info h
      exact absurd h (List.not_mem_nil _)
  | cons d rest ih =>
    constructor
    · intro name hname params ll hfit
      rcases List.mem_cons.mp hname with rfl | h2
      · simp [fit_distributions, hfit]
      · cases hd : fitFn d with
        | none =>
          simp only [fit_distributions, hd]
          exact ih.1 name h2 params ll hfit
        | some t =>
          obtain ⟨p2, l2⟩ := t
          simp only [fit_distributions, hd]
          exact List.mem_cons_of_mem _ (ih.1 name h2 params ll hfit)
    · intro name info hmem
      cases hd : fitFn d with
      | none =>
        simp only [fit_distributions, hd] at hmem
        exact ih.2 name info hmem
      | some t =>
        obtain ⟨p2, l2⟩ := t
        simp only [fit_distributions, hd] at hmem
        rcases List.mem_cons.mp hmem with heq | h2
        · obtain ⟨rfl, rfl⟩ : name = d ∧ info
              = (⟨p2, l2, 2 * (p2.length : ℚ) - 2 * l2,
                  (p2.length : ℚ) * logFn n - 2 * l2⟩ : FitInfo) := by
            simpa [Prod.ext_iff] using heq
          exact ⟨hd, rfl, rfl⟩
        · exact ih.2 name info h2

/-- C7 witness: the middle family "bad" fails to fit, yet "gamma" (listed
after it) is still fitted, with the AIC/BIC formulas. -/
theorem C7_fit_batch_independent_witness :
    ∃ info,
      ("gamma", info) ∈ fit_distributions
        (fun s => if s = "expon" then some ([5], 10)
          else if s = "gamma" then some ([1, 2], 7) else none)
        (fun _ => 3) 50 ["expon", "bad", "gamma"] ∧
      info.aic = 2 * 2 - 2 * 7 ∧ info.bic = 2 * 3 - 2 * 7 := by
  have h := (C7_fit_batch_independent
      (fun s => if s = "expon" then some ([5], 10)
        else if s = "gamma" then some ([1, 2], 7) else none)
      (fun _ => 3) 50 ["expon", "bad", "gamma"]).1 "gamma" (by simp) [1, 2] 7
      (by simp)
  refine ⟨_, h, ?_, ?_⟩ <;> norm_num

/-! ## Claim C8: chi-square bin filter and the degenerate case -/

/-- C8 counterexample: a concrete input on which exactly one bin survives
the `expected > 5` mask (the bin with expected exactly 5 is excluded), yet
`goodness_of_fit_tests` still returns a fully populated four-field result
whose chi-square statistic `(17−15)²/15 = 4/15` is computed from that
single bin — nothing in the returned value flags the test as degenerate. -/
theorem C8_counterexample :
    ((([3, 17].map (fun (n : ℕ) => (n : ℚ))).zip
        (expectedCounts (fun x => x ^ 2 / 4) 20 [0, 1, 2])).filter
        (fun p => decide (p.2 > 5))).length = 1 ∧
    goodness_of_fit_tests (1/10, 1/2) (fun _ _ => 7/10) (fun x => x ^ 2 / 4) 20
        [3, 17] [0, 1, 2]
      = ⟨1/10, 1/2, 4/15, 7/10⟩ := by
  constructor
  · with_unfolding_all decide
  · with_unfolding_all decide

/-- C8 amended: bins with expected count ≤ 5 are excluded from the
chi-square statistic (first half of the claim, confirmed), but no
degenerate-test flag exists: for every input — also when fewer than two
bins survive — the function returns the same four-field record, with the
Pearson statistic over the surviving bins and a p-value computed from
them. -/
theorem C8_chi2_filter_no_degenerate_flag (ks : ℚ × ℚ) (chi2sf : ℚ → ℤ → ℚ)
    (cdf : ℚ → ℚ) (nData : ℕ) (observed : List ℕ) (bin_edges : List ℚ) :
    (goodness_of_fit_tests ks chi2sf cdf nData observed bin_edges).chi2_statistic
      = chisquareStat (((observed.map (fun (n : ℕ) => (n : ℚ))).zip
          (expectedCounts cdf nData bin_edges)).filter (fun p => decide (p.2 > 5))) ∧
    (∀ p ∈ (observed.map (fun (n : ℕ) => (n : ℚ))).zip
          (expectedCounts cdf nData bin_edges), p.2 ≤ 5 →
      p ∉ ((observed.map (fun (n : ℕ) => (n : ℚ))).zip
          (expectedCounts cdf nData bin_edges)).filter (fun q => decide (q.2 > 5))) ∧
    goodness_of_fit_tests ks chi2sf cdf nData observed bin_edges
      = ⟨ks.1, ks.2,
          chisquareStat (((observed.map (fun (n : ℕ) => (n : ℚ))).zip
            (expectedCounts cdf nData bin_edges)).filter (fun p => decide (p.2 > 5))),
          chi2sf
            (chisquareStat (((observed.map (fun (n : ℕ) => (n : ℚ))).zip
              (expectedCounts cdf nData bin_edges)).filter (fun p => decide (p.2 > 5))))
            (((((observed.map (fun (n : ℕ) => (n : ℚ))).zip
              (expectedCounts cdf nData bin_edges)).filter
                (fun p => decide (p.2 > 5))).length : ℤ) - 1)⟩ := by
  refine ⟨rfl, ?_, rfl⟩
  intro p hp hle hmem
  have h2 := (List.mem_filter.mp hmem).2
  rw [decide_eq_true_eq] at h2
  exact absurd hle (not_le.mpr h2)

/-- C8 amended witness: a bin with expected count 5/2 ≤ 5 is excluded from
the surviving set. -/
theorem C8_chi2_filter_no_degenerate_flag_witness :
    ((4 : ℚ), (5/2 : ℚ)) ∉ (([4, 6].map (fun (n : ℕ) => (n : ℚ))).zip
        (expectedCounts (fun x => x / 4) 10 [0, 1, 2])).filter
        (fun q => decide (q.2 > 5)) :=
  (C8_chi2_filter_no_degenerate_flag (0, 0) (fun _ _ => 0) (fun x => x / 4) 10
    [4, 6] [0, 1, 2]).2.1 (4, 5/2) (by with_unfolding_all decide) (by norm_num)

/-! ## Claim C9: get_best_distribution and its cache -/

theorem bestScan_spec (ub : Bool) (L : List (String × FitInfo)) :
    ∀ (bn : String) (bp : List ℚ) (bv : ℚ),
      ∃ rn rp rv, bestScan ub L (some (bn, bp, bv)) = some (rn, rp, rv) ∧
        ((rn, rp, rv) = (bn, bp, bv) ∨
          ∃ i, (rn, i) ∈ L ∧ rp = i.params ∧ rv = criterionValue ub i) ∧
        rv ≤ bv ∧
        (∀ p ∈ L, rv ≤ criterionValue ub p.2) := by
  induction L with
  | nil =>
    intro bn bp bv
    refine ⟨bn, bp, bv, rfl, Or.inl rfl, le_refl _, ?_⟩
    intro p hp
    exact absurd hp (List.not_mem_nil _)
  | cons x xs ih =>
    intro bn bp bv
    obtain ⟨name, info⟩ := x
    by_cases hc : criterionValue ub info < bv
    · have hstep : bestScan ub ((name, info) :: xs) (some (bn, bp, bv))
          = bestScan ub xs (some (name, info.params, criterionValue ub info)) := by
        simp [bestScan, hc]
      rw [hstep]
      obtain ⟨rn, rp, rv, heq, hmem, hle, hall⟩ :=
        ih name info.params (criterionValue ub info)
      refine ⟨rn, rp, rv, heq, ?_, le_trans hle (le_of_lt hc), ?_⟩
      · rcases hmem with heq2 | ⟨i, hi, h1, h2⟩
        · obtain ⟨rfl, rfl, rfl⟩ :
              rn = name ∧ rp = info.params ∧ rv = criterionValue ub info := by
            simpa [Prod.ext_iff] using heq2
          exact Or.inr ⟨info, List.mem_cons_self _ _, rfl, rfl⟩
        · exact Or.inr ⟨i, List.mem_cons_of_mem _ hi, h1, h2⟩
      · intro p hp
        rcases List.mem_cons.mp hp with rfl | h2
        · exact hle
        · exact hall p h2
    · have hstep : bestScan ub ((name, info) :: xs) (some (bn, bp, bv))
          = bestScan ub xs (some (bn, bp, bv)) := by
        simp [bestScan, hc]
      rw [hstep]
      obtain ⟨rn, rp, rv, heq, hmem, hle, hall⟩ := ih bn bp bv
      refine ⟨rn, rp, rv, heq, ?_, hle, ?_⟩
      · rcases hmem with heq2 | ⟨i, hi, h1, h2⟩
        · exact Or.inl heq2
        · exact Or.inr ⟨i, List.mem_cons_of_mem _ hi, h1, h2⟩
      · intro p hp
        rcases List.mem_cons.mp hp with rfl | h2
        · exact le_trans hle (not_lt.mp hc)
        · exact hall p h2

/-- C9: once a previous `fit_distributions` call has populated the cache,
`get_best_distribution` ignores its data argument entirely — the result is
the same for any data (any external fit function and sample size), no
refit happens (the cache is returned unchanged), and the returned triple
is a cached entry of minimal criterion value among the cached fits. -/
theorem C9_get_best_ignores_data (fitFn fitFn2 : FitFn)
    (logFn logFn2 : ℕ → ℚ) (n n2 : ℕ) (cache : List (String × FitInfo))
    (ub : Bool) (h : cache ≠ []) :
    get_best_distribution fitFn logFn n cache ub
      = get_best_distribution fitFn2 logFn2 n2 cache ub ∧
    (get_best_distribution fitFn logFn n cache ub).1 = cache ∧
    ∃ rn rp rv,
      (get_best_distribution fitFn logFn n cache ub).2 = some (rn, rp, rv) ∧
      (∃ i, (rn, i) ∈ cache ∧ rp = i.params ∧ rv = criterionValue ub i) ∧
      ∀ p ∈ cache, rv ≤ criterionValue ub p.2 := by
  have hne : cache.isEmpty = false := by
    cases cache with
    | nil => exact absurd rfl h
    | cons x rest => rfl
  unfold get_best_distribution
  simp only [hne, Bool.false_eq_true, if_false]
  refine ⟨trivial, trivial, ?_⟩
  obtain ⟨⟨name, info⟩, rest, rfl⟩ : ∃ x rest, cache = x :: rest := by
    cases cache with
    | nil => exact absurd rfl h
    | cons x rest => exact ⟨x, rest, rfl⟩
  have hstep : bestScan ub ((name, info) :: rest) none
      = bestScan ub rest (some (name, info.params, criterionValue ub info)) := rfl
  rw [hstep]
  obtain ⟨rn, rp, rv, heq, hmem, hle, hall⟩ :=
    bestScan_spec ub rest name info.params (criterionValue ub info)
  refine ⟨rn, rp, rv, heq, ?_, ?_⟩
  · rcases hmem with heq2 | ⟨i, hi, h1, h2⟩
    · obtain ⟨rfl, rfl, rfl⟩ :
          rn = name ∧ rp = info.params ∧ rv = criterionValue ub info := by
        simpa [Prod.ext_iff] using heq2
      exact ⟨info, List.mem_cons_self _ _, rfl, rfl⟩
    · exact ⟨i, List.mem_cons_of_mem _ hi, h1, h2⟩
  · intro p hp
    rcases List.mem_cons.mp hp with rfl | h2
    · exact hle
    · exact hall p h2

/-- C9 witness: with a one-entry cache, the result is identical under two
entirely different data arguments (fit function, log and sample size). -/
theorem C9_get_best_ignores_data_witness :
    get_best_distribution (fun _ => some ([9], 9)) (fun _ => 9) 9
        [("expon", (⟨[1], 0, 2, 3⟩ : FitInfo))] false
      = get_best_distribution (fun _ => none) (fun _ => 0) 0
        [("expon", (⟨[1], 0, 2, 3⟩ : FitInfo))] false :=
  (C9_get_best_ignores_data (fun _ => some ([9], 9)) (fun _ => none)
    (fun _ => 9) (fun _ => 0) 9 0 [("expon", ⟨[1], 0, 2, 3⟩)] false
    (by simp)).1
